import Mathlib

/-
Verification of the github-scraper pipeline: a shallow embedding of the
retry/backoff state machine, the comment-aggregation strategies, the row
builder, the worker-pool orchestration and the upsert keying, with theorems
checking the specified properties against the embedded code.

Durations are modelled as Go does: integer nanoseconds (time.Duration).
-/

set_option autoImplicit false

namespace GithubScraper

/-! ## Time units (Go time.Duration is int64 nanoseconds) -/

def nsMillisecond : Int := 1000000

def nsSecond : Int := 1000000000

/-! ## Backoff state machine of the API Gateway

`CallFailure` abstracts a failed go-github call: whether the error is a
`*github.RateLimitError` (carrying the reset time, recorded here as
`resetMinusNow = resetTime - now`), whether it is a
`*github.AbuseRateLimitError` (carrying an optional RetryAfter duration),
and the HTTP status of the response when one is attached
(`respStatus = none` models `resp == nil || resp.Response == nil`).
-/

structure CallFailure where
  isRateLimit : Bool
  resetMinusNow : Int
  isAbuse : Bool
  retryAfter : Option Int
  respStatus : Option Nat
deriving DecidableEq

inductive BackoffAction where
  | sleepRetry (d : Int)
  | giveUp
deriving DecidableEq

/-- One pass of the error handler inside the retry loops of `GetAllPRs`,
`GetPRWithBackoff` and `GetPRCommentsBreakdown`: classify the failure and
either sleep and retry, or propagate (`giveUp`). -/
def backoffStep (f : CallFailure) : BackoffAction :=
  if f.isRateLimit then
    let sleepFor := f.resetMinusNow + nsSecond
    if sleepFor < 0 then .sleepRetry (5 * nsSecond) else .sleepRetry sleepFor
  else if f.isAbuse then
    match f.retryAfter with
    | some r => .sleepRetry r
    | none => .sleepRetry (10 * nsSecond)
  else
    match f.respStatus with
    | some st => if 500 ≤ st then .sleepRetry (3 * nsSecond) else .giveUp
    | none => .giveUp

/-- The error handler of the page loop in `GetRepoCommentsBreakdown`
(after its inner transient-5xx wrapper has given up): rate limit and abuse
back off as usual, and every other error sleeps 3s and retries the page. -/
def repoScanOuterStep (f : CallFailure) : BackoffAction :=
  if f.isRateLimit then
    let sleepFor := f.resetMinusNow + nsSecond
    if sleepFor < 0 then .sleepRetry (5 * nsSecond) else .sleepRetry sleepFor
  else if f.isAbuse then
    match f.retryAfter with
    | some r => .sleepRetry r
    | none => .sleepRetry (10 * nsSecond)
  else .sleepRetry (3 * nsSecond)

/-! ## Substring-based transient classification (strings.Contains) -/

def strContains (s pat : String) : Bool :=
  (List.range (s.toList.length + 1)).any (fun i => pat.toList.isPrefixOf (s.toList.drop i))

/-- Transient classification in `GetAllPRsGraphQL`. -/
def graphQLTransient (msg : String) : Bool :=
  strContains msg "rate limit" || strContains msg "502" || strContains msg "503" ||
    strContains msg "504"

/-- Transient classification in the inner wrapper of `GetRepoCommentsBreakdown`
(no rate-limit marker here, only 502/503/504). -/
def repoScanTransient (msg : String) : Bool :=
  strContains msg "502" || strContains msg "503" || strContains msg "504"

/-- Backoff base for attempt `attempt` (1-based):
500ms doubling per attempt, capped at 10s. -/
def expBackoffBase (attempt : Nat) : Int :=
  let base : Int := 500 * 2 ^ (attempt - 1) * nsMillisecond
  if 10 * nsSecond < base then 10 * nsSecond else base

/-- Sleep before the next attempt: capped exponential base plus a linear
jitter of 100ms per attempt. -/
def expBackoffSleep (attempt : Nat) : Int :=
  expBackoffBase attempt + nsMillisecond * (100 * attempt)

inductive RetryDecision where
  | giveUp
  | sleepThenRetry (d : Int)
deriving DecidableEq

/-- One pass of the retry wrapper in `GetAllPRsGraphQL` at a given (1-based)
attempt number: non-transient failures and attempt ≥ 6 propagate the error. -/
def graphQLRetryStep (msg : String) (attempt : Nat) : RetryDecision :=
  if !(graphQLTransient msg) || 6 ≤ attempt then .giveUp
  else .sleepThenRetry (expBackoffSleep attempt)

/-- One pass of the inner transient-5xx wrapper in `GetRepoCommentsBreakdown`. -/
def repoScanInnerStep (msg : String) (attempt : Nat) : RetryDecision :=
  if !(repoScanTransient msg) || 6 ≤ attempt then .giveUp
  else .sleepThenRetry (expBackoffSleep attempt)

/-! ## Comment aggregation

A comment author (`*github.User`) carries an account-type marker
(`User.Type *string` in go-github); `utype = some "Bot"` marks a bot.
-/

structure User where
  utype : Option String
deriving DecidableEq

/-- The `isBot` helper shared by both aggregation strategies:
`u == nil || u.Type == nil` is never a bot. -/
def isBot : Option User → Bool
  | none => false
  | some u =>
    match u.utype with
    | none => false
    | some t => t == "Bot"

structure CommentsBreakdown where
  TotalComments : Nat
  BotComments : Nat
deriving DecidableEq

/-- Count one retained comment: `TotalComments++`, and `BotComments++`
when the bot test holds. -/
def tally (bd : CommentsBreakdown) (bot : Bool) : CommentsBreakdown :=
  { TotalComments := bd.TotalComments + 1,
    BotComments := if bot then bd.BotComments + 1 else bd.BotComments }

/-- A conversation (issue) comment: author and reference URL
(`IssueComment.IssueURL`). -/
structure IssueComment where
  user : Option User
  issueURL : Option String
deriving DecidableEq

/-- A diff-review comment: author, primary reference URL
(`PullRequestComment.PullRequestURL`) and secondary display URL (`HTMLURL`). -/
structure PullRequestComment where
  user : Option User
  pullRequestURL : Option String
  htmlURL : Option String
deriving DecidableEq

/-! ### extractTrailingInt (from GetRepoCommentsBreakdown) -/

/-- Go slicing `s[:idx]` at the first occurrence of `ch`, the whole string
otherwise. -/
def cutAt (ch : Char) (s : String) : String :=
  ⟨s.toList.takeWhile (fun c => c != ch)⟩

/-- Go `strings.TrimRight(s, "/")`. -/
def trimRightSlash (s : String) : String :=
  ⟨(s.toList.reverse.dropWhile (fun c => c == '/')).reverse⟩

def digitsToNat (ds : List Char) : Nat :=
  ds.foldl (fun acc c => acc * 10 + (c.toNat - 48)) 0

/-- Go `strconv.Atoi`: optional sign followed by one or more ASCII digits. -/
def atoi (s : String) : Option Int :=
  match s.toList with
  | [] => none
  | '+' :: ds =>
    if ds.isEmpty then none
    else if ds.all Char.isDigit then some (digitsToNat ds) else none
  | '-' :: ds =>
    if ds.isEmpty then none
    else if ds.all Char.isDigit then some (-(digitsToNat ds : Int)) else none
  | ds => if ds.all Char.isDigit then some (digitsToNat ds) else none

/-- Go `strings.Split(s, "/")` over the character list (always nonempty). -/
def splitOnSlash : List Char → List (List Char)
  | [] => [[]]
  | c :: rest =>
    let r := splitOnSlash rest
    if c == '/' then [] :: r
    else
      match r with
      | [] => [[c]]
      | h :: t => (c :: h) :: t

/-- Trailing numeric path segment of a URL, after stripping query and
fragment and trailing slashes. -/
def extractTrailingInt (s : String) : Option Int :=
  if s = "" then none
  else
    let trimmed := cutAt '#' (cutAt '?' s)
    match (splitOnSlash (trimRightSlash trimmed).toList).getLast? with
    | none => none
    | some last => atoi ⟨last⟩

/-- PR id an issue comment is attributed to by the bulk scan. -/
def issueDerived (c : IssueComment) : Option Int :=
  c.issueURL.bind extractTrailingInt

/-- PR id a review comment is attributed to by the bulk scan: the primary
reference URL, falling back to the display URL when extraction fails. -/
def reviewDerived (c : PullRequestComment) : Option Int :=
  match c.pullRequestURL.bind extractTrailingInt with
  | some n => some n
  | none => c.htmlURL.bind extractTrailingInt

/-! ### Strategy 2: per-item fallback (GetPRCommentsBreakdown)

The success path of `GetPRCommentsBreakdown`, with the pages of the two
scoped endpoints flattened into two lists: every returned comment is
tallied.
-/

def GetPRCommentsBreakdown (issueComments : List IssueComment)
    (reviewComments : List PullRequestComment) : CommentsBreakdown :=
  reviewComments.foldl (fun bd c => tally bd (isBot c.user))
    (issueComments.foldl (fun bd c => tally bd (isBot c.user)) ⟨0, 0⟩)

/-! ### Strategy 1: bulk repository-wide scan (GetRepoCommentsBreakdown)

The breakdown map is modelled as a total function `Int → CommentsBreakdown`
defaulting to zero counts, matching Go's zero-value map reads; entries are
only ever created by `record`, which increments `TotalComments`.
-/

structure RepoComments where
  issueComments : List IssueComment
  reviewComments : List PullRequestComment
deriving DecidableEq

/-- The `record` helper of the bulk scan: ids outside the wanted set are
discarded. -/
def record (wanted : List Int) (bds : Int → CommentsBreakdown) (prNumber : Int)
    (bot : Bool) : Int → CommentsBreakdown :=
  if wanted.contains prNumber then
    fun m => if m = prNumber then tally (bds prNumber) bot else bds m
  else bds

/-- Bulk-scan handling of one repository-level issue comment:
`c.User == nil` is skipped, then the id derived from `IssueURL` is recorded. -/
def processIssueComment (wanted : List Int) (bds : Int → CommentsBreakdown)
    (c : IssueComment) : Int → CommentsBreakdown :=
  match c.user with
  | none => bds
  | some _ =>
    match issueDerived c with
    | none => bds
    | some n => record wanted bds n (isBot c.user)

/-- Bulk-scan handling of one repository-level review comment. -/
def processReviewComment (wanted : List Int) (bds : Int → CommentsBreakdown)
    (c : PullRequestComment) : Int → CommentsBreakdown :=
  match c.user with
  | none => bds
  | some _ =>
    match reviewDerived c with
    | none => bds
    | some n => record wanted bds n (isBot c.user)

/-- The success path of `GetRepoCommentsBreakdown` over the flattened pages
of the two repository-level endpoints. -/
def GetRepoCommentsBreakdown (wanted : List Int) (rc : RepoComments) :
    Int → CommentsBreakdown :=
  rc.reviewComments.foldl (processReviewComment wanted)
    (rc.issueComments.foldl (processIssueComment wanted) (fun _ => ⟨0, 0⟩))

/-- The comments the per-item endpoints return for PR `n`: exactly the
repository comments attributed to `n` (same underlying comments). -/
def issueCommentsFor (rc : RepoComments) (n : Int) : List IssueComment :=
  rc.issueComments.filter (fun c => issueDerived c == some n)

def reviewCommentsFor (rc : RepoComments) (n : Int) : List PullRequestComment :=
  rc.reviewComments.filter (fun c => reviewDerived c == some n)

/-! ## Row building and the worker pool (scraper.Run)

`PRLite` is the bulk lister's minimal projection (`services.PRLite`);
`PRRow` is `types.PRRow`. Timestamps are modelled as integer nanoseconds.
-/

structure PRLite where
  Number : Int
  Additions : Int
  Deletions : Int
  CreatedAt : Int
deriving DecidableEq

structure PRRow where
  ID : Int
  Repo : String
  Owner : String
  CommentCount : Nat
  BotComments : Nat
  LinesChanged : Int
  CreatedAt : Int
deriving DecidableEq

/-- The row assembly inlined in the worker body of `scraper.Run`:
`linesChanged = additions + deletions`, every other field copied. -/
def buildRowFromLite (owner repo : String) (number : Int) (lite : PRLite)
    (bd : CommentsBreakdown) : PRRow :=
  { ID := number, Repo := repo, Owner := owner,
    CommentCount := bd.TotalComments, BotComments := bd.BotComments,
    LinesChanged := lite.Additions + lite.Deletions,
    CreatedAt := lite.CreatedAt }

/-- The Go map `liteMap` built from the lites list: later entries overwrite
earlier ones and a missing key reads as the zero value. -/
def liteMapOf (lites : List PRLite) : Int → PRLite :=
  lites.foldl (fun m pr => fun n => if n = pr.Number then pr else m n)
    (fun _ => ⟨0, 0, 0, 0⟩)

/-- The `result` struct sent on the results channel: success carries the row
and the inserted flag, failure carries the id and the error. -/
inductive JobResult where
  | ok (number : Int) (row : PRRow) (inserted : Bool)
  | fails (number : Int) (msg : String)
deriving DecidableEq

/-- The environment of a run: remote and database collaborators.
`fallback` is the outcome of `GetPRCommentsBreakdown` for an id,
`hasPool` models `db.Pool != nil`, and `insertResult` is the outcome of
`db.InsertPRRow` (`none` = success). -/
structure ScrapeEnv where
  owner : String
  repo : String
  fallback : Int → Except String CommentsBreakdown
  hasPool : Bool
  insertResult : Int → PRRow → Option String

/-- The worker body of `scraper.Run` for one job: breakdown from the
preloaded map, else the per-item fallback; build the row; upsert when a
pool is configured. Every control path emits exactly one result. -/
def processJob (env : ScrapeEnv) (bds : Int → Option CommentsBreakdown)
    (lm : Int → PRLite) (number : Int) : JobResult :=
  let breakdownRes : Except String CommentsBreakdown :=
    match bds number with
    | some bd => .ok bd
    | none => env.fallback number
  match breakdownRes with
  | .error e => .fails number e
  | .ok breakdown =>
    let row := buildRowFromLite env.owner env.repo number (lm number) breakdown
    if env.hasPool then
      match env.insertResult number row with
      | some e => .fails number e
      | none => .ok number row true
    else .ok number row false

/-- One worker consuming its share of the job queue. -/
def workerRun (env : ScrapeEnv) (bds : Int → Option CommentsBreakdown)
    (lm : Int → PRLite) (js : List Int) : List JobResult :=
  js.map (processJob env bds lm)

/-- The three atomic counters of `scraper.Run`. -/
structure Counters where
  processed : Int
  inserted : Int
  errors : Int
deriving DecidableEq

/-- One iteration of the consuming loop in `scraper.Run`. -/
def consumeStep (c : Counters) (r : JobResult) : Counters :=
  match r with
  | .fails _ _ => { c with errors := c.errors + 1 }
  | .ok _ _ ins =>
    { processed := c.processed + 1,
      inserted := if ins then c.inserted + 1 else c.inserted,
      errors := c.errors }

/-- The uncancelled `scraper.Run`: list the PRs (aborting on failure),
preload the bulk breakdown map (a failed preload degrades to an empty map),
process every job and consume every result. -/
def Run (env : ScrapeEnv) (listResult : Except String (List PRLite))
    (preload : Except String (Int → Option CommentsBreakdown)) :
    Except String Counters :=
  match listResult with
  | .error e => .error e
  | .ok lites =>
    let jobNumbers := lites.map (fun pr => pr.Number)
    let bds : Int → Option CommentsBreakdown :=
      match preload with
      | .ok m => m
      | .error _ => fun _ => none
    let rs := workerRun env bds (liteMapOf lites) jobNumbers
    .ok (rs.foldl consumeStep ⟨0, 0, 0⟩)

/-! ## The persistence sink (db.InsertPRRow)

The `prs` table is modelled as an association list keyed by the primary
key; `upsert` is `INSERT ... ON CONFLICT (id) DO UPDATE`.
-/

def upsert {κ : Type} [DecidableEq κ] : List (κ × PRRow) → κ → PRRow →
    List (κ × PRRow)
  | [], k, r => [(k, r)]
  | p :: t, k, r => if p.1 = k then (k, r) :: t else p :: upsert t k r

def lookupKey {κ : Type} [DecidableEq κ] : List (κ × PRRow) → κ → Option PRRow
  | [], _ => none
  | p :: t, k => if p.1 = k then some p.2 else lookupKey t k

def containsKey {κ : Type} [DecidableEq κ] : List (κ × PRRow) → κ → Bool
  | [], _ => false
  | p :: t, k => decide (p.1 = k) || containsKey t k

/-- The composite key `fmt.Sprintf("%d:%s:%s", row.ID, row.Owner, row.Repo)`
of the current `db.InsertPRRow`. -/
def insertKeyComposite (row : PRRow) : String :=
  toString row.ID ++ ":" ++ row.Owner ++ ":" ++ row.Repo

/-- The current `db.InsertPRRow`: upsert by the composite string key. -/
def InsertPRRow (t : List (String × PRRow)) (row : PRRow) :
    List (String × PRRow) :=
  upsert t (insertKeyComposite row) row

/-- The earlier `db.InsertPRRow` variant: upsert by the bare numeric id. -/
def InsertPRRowById (t : List (Int × PRRow)) (row : PRRow) :
    List (Int × PRRow) :=
  upsert t row.ID row

/-! ## Theorems -/

/-- C1: the claim's rate-limit formula `max(T − now + 1s, 5s)` does not match
the code: with the reset one second in the past (`resetMinusNow = 0`,
so `T − now + 1s = 1s ≥ 0`), the code sleeps 1s, while the claimed formula
demands 5s. -/
theorem C1_rate_limit_sleep_cex :
    backoffStep ⟨true, 0, false, none, none⟩ = .sleepRetry nsSecond
  ∧ BackoffAction.sleepRetry nsSecond ≠
      .sleepRetry (max (0 + nsSecond) (5 * nsSecond)) := by
  constructor
  · decide
  · intro h
    simp only [BackoffAction.sleepRetry.injEq, nsSecond, max_def] at h
    omega

/-- C1 (amended): a rate-limit failure sleeps `T − now + 1s`, substituting 5s
only when that quantity is negative; an abuse failure sleeps the provided
retry-after, else 10s; a 5xx response sleeps a fixed 3s; in all three cases
the call is retried (the action is a sleep-and-retry, never a propagation). -/
theorem C1_backoff_arithmetic (f : CallFailure) :
    (f.isRateLimit = true →
      backoffStep f = .sleepRetry
        (if f.resetMinusNow + nsSecond < 0 then 5 * nsSecond
         else f.resetMinusNow + nsSecond))
  ∧ (f.isRateLimit = false → f.isAbuse = true → ∀ r, f.retryAfter = some r →
      backoffStep f = .sleepRetry r)
  ∧ (f.isRateLimit = false → f.isAbuse = true → f.retryAfter = none →
      backoffStep f = .sleepRetry (10 * nsSecond))
  ∧ (f.isRateLimit = false → f.isAbuse = false → ∀ st, f.respStatus = some st →
      500 ≤ st → backoffStep f = .sleepRetry (3 * nsSecond)) := by
  refine ⟨?_, ?_, ?_, ?_⟩
  · intro h
    simp only [backoffStep, h, if_true]
    split <;> simp_all
  · intro h1 h2 r hr
    simp [backoffStep, h1, h2, hr]
  · intro h1 h2 hr
    simp [backoffStep, h1, h2, hr]
  · intro h1 h2 st hst h500
    simp [backoffStep, h1, h2, hst, h500]

/-- Witness for C1 at a rate-limit failure whose reset lies 2s in the
future: the code sleeps 2s + 1s = 3s. -/
theorem C1_backoff_arithmetic_witness :
    backoffStep ⟨true, 2 * nsSecond, false, none, none⟩ =
      .sleepRetry (2 * nsSecond + nsSecond) := by
  have h := (C1_backoff_arithmetic ⟨true, 2 * nsSecond, false, none, none⟩).1 rfl
  simpa [nsSecond] using h

/-- C5: the row builder is a pure function of the lite record and the
breakdown: `linesChanged = additions + deletions`, nonnegative for
nonnegative inputs, and all remaining fields are copied unchanged. -/
theorem C5_row_builder (owner repo : String) (number : Int) (lite : PRLite)
    (bd : CommentsBreakdown) (ha : 0 ≤ lite.Additions)
    (hd : 0 ≤ lite.Deletions) :
    (buildRowFromLite owner repo number lite bd).LinesChanged =
        lite.Additions + lite.Deletions
  ∧ 0 ≤ (buildRowFromLite owner repo number lite bd).LinesChanged
  ∧ (buildRowFromLite owner repo number lite bd).ID = number
  ∧ (buildRowFromLite owner repo number lite bd).Owner = owner
  ∧ (buildRowFromLite owner repo number lite bd).Repo = repo
  ∧ (buildRowFromLite owner repo number lite bd).CommentCount = bd.TotalComments
  ∧ (buildRowFromLite owner repo number lite bd).BotComments = bd.BotComments
  ∧ (buildRowFromLite owner repo number lite bd).CreatedAt = lite.CreatedAt := by
  refine ⟨rfl, ?_, rfl, rfl, rfl, rfl, rfl, rfl⟩
  exact add_nonneg ha hd

/-- Witness for C5 on a concrete lite record and breakdown. -/
theorem C5_row_builder_witness :
    (buildRowFromLite "o" "r" 7 ⟨7, 10, 2, 99⟩ ⟨3, 1⟩).LinesChanged = 10 + 2
  ∧ 0 ≤ (buildRowFromLite "o" "r" 7 ⟨7, 10, 2, 99⟩ ⟨3, 1⟩).LinesChanged := by
  have h := C5_row_builder "o" "r" 7 ⟨7, 10, 2, 99⟩ ⟨3, 1⟩ (by decide) (by decide)
  exact ⟨h.1, h.2.1⟩

/-- C6: the claim fails for the bulk comment scan: on an error that is
neither rate-limit, nor abuse, nor transient-5xx (here a 404), the page
loop of `GetRepoCommentsBreakdown` sleeps 3s and retries instead of
propagating the error. -/
theorem C6_fatal_error_cex :
    repoScanOuterStep ⟨false, 0, false, none, some 404⟩ =
      .sleepRetry (3 * nsSecond)
  ∧ repoScanOuterStep ⟨false, 0, false, none, some 404⟩ ≠ .giveUp := by
  decide

/-- C6 (amended): an unclassified failure aborts the bulk PR listing
immediately with no retry; in the bulk comment scan it is never propagated:
the inner wrapper gives up at once on a non-transient error, and the page
loop then sleeps a fixed 3s and retries. -/
theorem C6_fatal_propagation (f : CallFailure) (msg : String)
    (hrl : f.isRateLimit = false) (hab : f.isAbuse = false) :
    ((∀ st, f.respStatus = some st → st < 500) → backoffStep f = .giveUp)
  ∧ repoScanOuterStep f = .sleepRetry (3 * nsSecond)
  ∧ (repoScanTransient msg = false →
      ∀ attempt, repoScanInnerStep msg attempt = .giveUp) := by
  refine ⟨?_, ?_, ?_⟩
  · intro hlt
    simp only [backoffStep, hrl, hab, Bool.false_eq_true, if_false]
    cases hst : f.respStatus with
    | none => simp
    | some st =>
      have := hlt st hst
      simp [this, Nat.not_le.mpr this]
  · simp [repoScanOuterStep, hrl, hab]
  · intro htr attempt
    simp [repoScanInnerStep, htr]

/-- Witness for C6 at a concrete 404 failure. -/
theorem C6_fatal_propagation_witness :
    backoffStep ⟨false, 0, false, none, some 404⟩ = .giveUp
  ∧ repoScanOuterStep ⟨false, 0, false, none, some 404⟩ =
      .sleepRetry (3 * nsSecond)
  ∧ repoScanInnerStep "404 Not Found" 1 = .giveUp := by
  have h := C6_fatal_propagation ⟨false, 0, false, none, some 404⟩
    "404 Not Found" rfl rfl
  refine ⟨h.1 ?_, h.2.1, h.2.2 (by decide) 1⟩
  intro st hst
  cases hst
  decide

/-! ### Aggregation lemmas -/

theorem processIssueComment_apply (wanted : List Int)
    (bds : Int → CommentsBreakdown) (c : IssueComment) (n : Int)
    (hn : wanted.contains n = true) :
    processIssueComment wanted bds c n =
      if c.user.isSome && (issueDerived c == some n) then
        tally (bds n) (isBot c.user)
      else bds n := by
  cases hu : c.user with
  | none => simp [processIssueComment, hu]
  | some u =>
    cases hd : issueDerived c with
    | none => simp [processIssueComment, hu, hd]
    | some m =>
      simp only [processIssueComment, hu, hd, Option.isSome_some, Bool.true_and]
      by_cases hmn : m = n
      · subst hmn
        have hm : m ∈ wanted := by simpa using hn
        simp [record, hm]
      · have hbe : ((some m : Option Int) == some n) = false := by
          simp [hmn]
        rw [hbe]
        simp only [Bool.false_eq_true, if_false, record]
        split
        · simp [Ne.symm hmn]
        · rfl

theorem processReviewComment_apply (wanted : List Int)
    (bds : Int → CommentsBreakdown) (c : PullRequestComment) (n : Int)
    (hn : wanted.contains n = true) :
    processReviewComment wanted bds c n =
      if c.user.isSome && (reviewDerived c == some n) then
        tally (bds n) (isBot c.user)
      else bds n := by
  cases hu : c.user with
  | none => simp [processReviewComment, hu]
  | some u =>
    cases hd : reviewDerived c with
    | none => simp [processReviewComment, hu, hd]
    | some m =>
      simp only [processReviewComment, hu, hd, Option.isSome_some, Bool.true_and]
      by_cases hmn : m = n
      · subst hmn
        have hm : m ∈ wanted := by simpa using hn
        simp [record, hm]
      · have hbe : ((some m : Option Int) == some n) = false := by
          simp [hmn]
        rw [hbe]
        simp only [Bool.false_eq_true, if_false, record]
        split
        · simp [Ne.symm hmn]
        · rfl

theorem foldl_processIssueComment (wanted : List Int) (n : Int)
    (hn : wanted.contains n = true) (cs : List IssueComment)
    (bds : Int → CommentsBreakdown) :
    (cs.foldl (processIssueComment wanted) bds) n =
      (cs.filter (fun c => c.user.isSome && (issueDerived c == some n))).foldl
        (fun bd c => tally bd (isBot c.user)) (bds n) := by
  induction cs generalizing bds with
  | nil => rfl
  | cons c cs ih =>
    rw [List.foldl_cons, ih, processIssueComment_apply wanted bds c n hn,
      List.filter_cons]
    by_cases h : (c.user.isSome && (issueDerived c == some n)) = true
    · rw [if_pos h, if_pos h, List.foldl_cons]
    · rw [if_neg h, if_neg h]

theorem foldl_processReviewComment (wanted : List Int) (n : Int)
    (hn : wanted.contains n = true) (cs : List PullRequestComment)
    (bds : Int → CommentsBreakdown) :
    (cs.foldl (processReviewComment wanted) bds) n =
      (cs.filter (fun c => c.user.isSome && (reviewDerived c == some n))).foldl
        (fun bd c => tally bd (isBot c.user)) (bds n) := by
  induction cs generalizing bds with
  | nil => rfl
  | cons c cs ih =>
    rw [List.foldl_cons, ih, processReviewComment_apply wanted bds c n hn,
      List.filter_cons]
    by_cases h : (c.user.isSome && (reviewDerived c == some n)) = true
    · rw [if_pos h, if_pos h, List.foldl_cons]
    · rw [if_neg h, if_neg h]

theorem tally_bot_le (bd : CommentsBreakdown) (b : Bool)
    (h : bd.BotComments ≤ bd.TotalComments) :
    (tally bd b).BotComments ≤ (tally bd b).TotalComments := by
  cases b <;> simp [tally] <;> omega

theorem foldl_tally_bot_le {α : Type} (f : α → Bool) (cs : List α)
    (bd : CommentsBreakdown) (h : bd.BotComments ≤ bd.TotalComments) :
    (cs.foldl (fun bd c => tally bd (f c)) bd).BotComments ≤
      (cs.foldl (fun bd c => tally bd (f c)) bd).TotalComments := by
  induction cs generalizing bd with
  | nil => exact h
  | cons c cs ih => exact ih _ (tally_bot_le bd (f c) h)

theorem record_inv (wanted : List Int) (bds : Int → CommentsBreakdown)
    (m : Int) (b : Bool)
    (h : ∀ k, (bds k).BotComments ≤ (bds k).TotalComments) :
    ∀ k, ((record wanted bds m b) k).BotComments ≤
      ((record wanted bds m b) k).TotalComments := by
  intro k
  unfold record
  split
  · by_cases hk : k = m
    · simp only [hk, if_pos rfl]
      exact tally_bot_le _ _ (h m)
    · simp only [if_neg hk]
      exact h k
  · exact h k

theorem processIssueComment_inv (wanted : List Int)
    (bds : Int → CommentsBreakdown) (c : IssueComment)
    (h : ∀ k, (bds k).BotComments ≤ (bds k).TotalComments) :
    ∀ k, ((processIssueComment wanted bds c) k).BotComments ≤
      ((processIssueComment wanted bds c) k).TotalComments := by
  unfold processIssueComment
  cases c.user with
  | none => exact h
  | some u =>
    cases issueDerived c with
    | none => exact h
    | some m => exact record_inv wanted bds m _ h

theorem processReviewComment_inv (wanted : List Int)
    (bds : Int → CommentsBreakdown) (c : PullRequestComment)
    (h : ∀ k, (bds k).BotComments ≤ (bds k).TotalComments) :
    ∀ k, ((processReviewComment wanted bds c) k).BotComments ≤
      ((processReviewComment wanted bds c) k).TotalComments := by
  unfold processReviewComment
  cases c.user with
  | none => exact h
  | some u =>
    cases reviewDerived c with
    | none => exact h
    | some m => exact record_inv wanted bds m _ h

theorem foldl_processIssueComment_inv (wanted : List Int)
    (cs : List IssueComment) (bds : Int → CommentsBreakdown)
    (h : ∀ k, (bds k).BotComments ≤ (bds k).TotalComments) :
    ∀ k, ((cs.foldl (processIssueComment wanted) bds) k).BotComments ≤
      ((cs.foldl (processIssueComment wanted) bds) k).TotalComments := by
  induction cs generalizing bds with
  | nil => exact h
  | cons c cs ih => exact ih _ (processIssueComment_inv wanted bds c h)

theorem foldl_processReviewComment_inv (wanted : List Int)
    (cs : List PullRequestComment) (bds : Int → CommentsBreakdown)
    (h : ∀ k, (bds k).BotComments ≤ (bds k).TotalComments) :
    ∀ k, ((cs.foldl (processReviewComment wanted) bds) k).BotComments ≤
      ((cs.foldl (processReviewComment wanted) bds) k).TotalComments := by
  induction cs generalizing bds with
  | nil => exact h
  | cons c cs ih => exact ih _ (processReviewComment_inv wanted bds c h)

/-- C3: the claim fails as stated: an authorless comment of a wanted pull
request (here a conversation comment on PR 1) is counted by the per-item
fallback but skipped entirely by the bulk scan, so the bulk map entry for
that id differs from the per-item breakdown over the same comments. -/
theorem C3_strategies_disagree_cex :
    ([1] : List Int).contains 1 = true
  ∧ GetRepoCommentsBreakdown [1]
      ⟨[⟨none, some "https://api.github.com/repos/o/r/issues/1"⟩], []⟩ 1 ≠
    GetPRCommentsBreakdown
      (issueCommentsFor
        ⟨[⟨none, some "https://api.github.com/repos/o/r/issues/1"⟩], []⟩ 1)
      (reviewCommentsFor
        ⟨[⟨none, some "https://api.github.com/repos/o/r/issues/1"⟩], []⟩ 1) := by
  decide

/-- C3 (amended): for every wanted id all of whose attributed comments carry
a present author, the bulk scan's entry (with zero-valued map reads) equals
the per-item fallback's breakdown over the same underlying comments. -/
theorem C3_strategies_agree (wanted : List Int) (rc : RepoComments) (n : Int)
    (hn : wanted.contains n = true)
    (hIss : ∀ c ∈ rc.issueComments, issueDerived c = some n →
      c.user.isSome = true)
    (hRev : ∀ c ∈ rc.reviewComments, reviewDerived c = some n →
      c.user.isSome = true) :
    GetRepoCommentsBreakdown wanted rc n =
      GetPRCommentsBreakdown (issueCommentsFor rc n) (reviewCommentsFor rc n) := by
  unfold GetRepoCommentsBreakdown GetPRCommentsBreakdown issueCommentsFor
    reviewCommentsFor
  rw [foldl_processReviewComment wanted n hn, foldl_processIssueComment wanted n hn]
  have e1 : rc.issueComments.filter
        (fun c => c.user.isSome && (issueDerived c == some n)) =
      rc.issueComments.filter (fun c => issueDerived c == some n) := by
    apply List.filter_congr
    intro c hc
    cases hbe : (issueDerived c == some n) with
    | false => simp [hbe]
    | true =>
      have := hIss c hc (by simpa using hbe)
      simp [hbe, this]
  have e2 : rc.reviewComments.filter
        (fun c => c.user.isSome && (reviewDerived c == some n)) =
      rc.reviewComments.filter (fun c => reviewDerived c == some n) := by
    apply List.filter_congr
    intro c hc
    cases hbe : (reviewDerived c == some n) with
    | false => simp [hbe]
    | true =>
      have := hRev c hc (by simpa using hbe)
      simp [hbe, this]
  rw [e1, e2]

/-- Witness for C3 on a two-comment fixture (one bot conversation comment,
one human review comment, both authored) where both strategies agree. -/
theorem C3_strategies_agree_witness :
    GetRepoCommentsBreakdown [12]
      ⟨[⟨some ⟨some "Bot"⟩, some "https://api.github.com/repos/o/r/issues/12"⟩],
        [⟨some ⟨some "User"⟩, some "https://api.github.com/repos/o/r/pulls/12",
          none⟩]⟩ 12 =
    GetPRCommentsBreakdown
      (issueCommentsFor
        ⟨[⟨some ⟨some "Bot"⟩, some "https://api.github.com/repos/o/r/issues/12"⟩],
          [⟨some ⟨some "User"⟩, some "https://api.github.com/repos/o/r/pulls/12",
            none⟩]⟩ 12)
      (reviewCommentsFor
        ⟨[⟨some ⟨some "Bot"⟩, some "https://api.github.com/repos/o/r/issues/12"⟩],
          [⟨some ⟨some "User"⟩, some "https://api.github.com/repos/o/r/pulls/12",
            none⟩]⟩ 12) := by
  apply C3_strategies_agree
  · decide
  · intro c hc hd
    simp only [List.mem_singleton] at hc
    subst hc
    rfl
  · intro c hc hd
    simp only [List.mem_singleton] at hc
    subst hc
    rfl

/-- C4: in both aggregation strategies every produced breakdown satisfies
`botComments ≤ totalComments` — the per-item result, and every entry of the
bulk map. -/
theorem C4_bot_le_total (ics : List IssueComment)
    (rcs : List PullRequestComment) (wanted : List Int) (rc : RepoComments)
    (n : Int) :
    (GetPRCommentsBreakdown ics rcs).BotComments ≤
      (GetPRCommentsBreakdown ics rcs).TotalComments
  ∧ ((GetRepoCommentsBreakdown wanted rc) n).BotComments ≤
      ((GetRepoCommentsBreakdown wanted rc) n).TotalComments := by
  constructor
  · unfold GetPRCommentsBreakdown
    exact foldl_tally_bot_le _ _ _
      (foldl_tally_bot_le _ _ _ (Nat.le_refl 0))
  · unfold GetRepoCommentsBreakdown
    exact foldl_processReviewComment_inv wanted _ _
      (foldl_processIssueComment_inv wanted _ _ (fun k => Nat.le_refl 0)) n

/-- C9: in both strategies a counted comment increments `botComments`
exactly when its author's account type equals "Bot"; an absent author or
absent account type is never counted as a bot. -/
theorem C9_bot_classification (ou : Option User) (bd : CommentsBreakdown)
    (wanted : List Int) (bds : Int → CommentsBreakdown) (n : Int)
    (hw : wanted.contains n = true) :
    (isBot ou = true ↔ ∃ u, ou = some u ∧ u.utype = some "Bot")
  ∧ (ou = none → isBot ou = false)
  ∧ (∀ u, ou = some u → u.utype = none → isBot ou = false)
  ∧ (∀ url, GetPRCommentsBreakdown [⟨ou, url⟩] [] =
      ⟨1, if isBot ou then 1 else 0⟩)
  ∧ (record wanted bds n (isBot ou) n = tally (bds n) (isBot ou))
  ∧ (tally bd (isBot ou)).TotalComments = bd.TotalComments + 1
  ∧ (tally bd (isBot ou)).BotComments =
      bd.BotComments + (if isBot ou then 1 else 0) := by
  refine ⟨?_, ?_, ?_, ?_, ?_, rfl, ?_⟩
  · cases ou with
    | none => simp [isBot]
    | some u =>
      cases hu : u.utype with
      | none => simp [isBot, hu]
      | some t =>
        simp only [isBot, hu, beq_iff_eq, Option.some.injEq]
        constructor
        · intro ht
          exact ⟨u, rfl, by rw [hu, ht]⟩
        · rintro ⟨u2, h2, h3⟩
          subst h2
          rw [hu] at h3
          exact Option.some.inj h3
  · intro h; subst h; rfl
  · intro u hu ht
    subst hu
    simp [isBot, ht]
  · intro url
    show tally ⟨0, 0⟩ (isBot ou) = ⟨1, if isBot ou then 1 else 0⟩
    cases hb : isBot ou <;> simp [tally, hb]
  · have hm : n ∈ wanted := by simpa using hw
    simp [record, hm]
  · cases hb : isBot ou <;> simp [tally, hb]

/-- Witness for C9 at a bot author on a wanted id. -/
theorem C9_bot_classification_witness :
    isBot (some ⟨some "Bot"⟩) = true
  ∧ GetPRCommentsBreakdown [⟨some ⟨some "Bot"⟩, none⟩] [] =
      ⟨1, if isBot (some ⟨some "Bot"⟩) then 1 else 0⟩ := by
  have h := C9_bot_classification (some ⟨some "Bot"⟩) ⟨0, 0⟩ [5]
    (fun _ => ⟨0, 0⟩) 5 (by decide)
  exact ⟨h.1.mpr ⟨⟨some "Bot"⟩, rfl, rfl⟩, h.2.2.2.1 none⟩

/-- C7: the GraphQL bulk query classifies a failure transient exactly when
its text contains a rate-limit or 502/503/504 marker; a transient failure
before the sixth attempt sleeps `min(500ms · 2^(attempt−1), 10s) +
100ms · attempt` and retries; a non-transient failure or attempt ≥ 6
propagates the error. -/
theorem C7_graphql_retry (msg : String) (attempt : Nat) :
    (graphQLTransient msg = true → attempt < 6 →
      graphQLRetryStep msg attempt =
        .sleepThenRetry
          (min (500 * 2 ^ (attempt - 1) * nsMillisecond) (10 * nsSecond) +
            nsMillisecond * (100 * attempt)))
  ∧ (graphQLTransient msg = false → graphQLRetryStep msg attempt = .giveUp)
  ∧ (6 ≤ attempt → graphQLRetryStep msg attempt = .giveUp)
  ∧ (graphQLTransient msg = true ↔
      (strContains msg "rate limit" = true ∨ strContains msg "502" = true ∨
        strContains msg "503" = true ∨ strContains msg "504" = true)) := by
  refine ⟨?_, ?_, ?_, ?_⟩
  · intro htr hlt
    have hbase : expBackoffBase attempt =
        min (500 * 2 ^ (attempt - 1) * nsMillisecond) (10 * nsSecond) := by
      simp only [expBackoffBase, min_def]
      split <;> split <;> omega
    simp [graphQLRetryStep, htr, Nat.not_le.mpr hlt, expBackoffSleep, hbase]
  · intro htr
    simp [graphQLRetryStep, htr]
  · intro hge
    simp [graphQLRetryStep, hge]
  · simp [graphQLTransient, Bool.or_eq_true, or_assoc]

/-- Witness for C7: the marker "rate limit" at attempt 2 sleeps
1000ms + 200ms and retries. -/
theorem C7_graphql_retry_witness :
    graphQLRetryStep "secondary rate limit" 2 =
      .sleepThenRetry
        (min (500 * 2 ^ (2 - 1) * nsMillisecond) (10 * nsSecond) +
          nsMillisecond * (100 * 2)) := by
  exact (C7_graphql_retry "secondary rate limit" 2).1 (by decide) (by decide)

/-! ### Worker-pool lemmas -/

theorem consume_counts (rs : List JobResult) (c : Counters) :
    (rs.foldl consumeStep c).processed + (rs.foldl consumeStep c).errors =
      c.processed + c.errors + rs.length := by
  induction rs generalizing c with
  | nil => simp
  | cons r rs ih =>
    rw [List.foldl_cons, ih]
    cases r <;> simp only [consumeStep, List.length_cons] <;> push_cast <;> ring

theorem consume_all_ok (rs : List JobResult) (c : Counters)
    (h : ∀ r ∈ rs, ∃ num row, r = JobResult.ok num row false) :
    rs.foldl consumeStep c = ⟨c.processed + rs.length, c.inserted, c.errors⟩ := by
  induction rs generalizing c with
  | nil => cases c; simp
  | cons r rs ih =>
    obtain ⟨num, row, hr⟩ := h r (List.mem_cons_self r rs)
    subst hr
    rw [List.foldl_cons, ih _ (fun r hr => h r (List.mem_cons_of_mem _ hr))]
    simp [consumeStep]
    omega

/-- C2: over any split of the N dispatched identifiers among the workers
(the job channel hands each job to exactly one worker), each worker emits
exactly one result per consumed job, the results total exactly N, and the
consuming loop accounts every one of the N results in its
processed/errors counters. -/
theorem C2_exactly_n_results (env : ScrapeEnv)
    (bds : Int → Option CommentsBreakdown) (lm : Int → PRLite)
    (jobNumbers : List Int) (parts : List (List Int))
    (hpart : List.Perm parts.flatten jobNumbers) :
    (∀ js : List Int, (workerRun env bds lm js).length = js.length)
  ∧ (parts.map (workerRun env bds lm)).flatten.length = jobNumbers.length
  ∧ (∀ rs : List JobResult, rs.length = jobNumbers.length →
      (rs.foldl consumeStep ⟨0, 0, 0⟩).processed +
        (rs.foldl consumeStep ⟨0, 0, 0⟩).errors = (jobNumbers.length : Int)) := by
  refine ⟨?_, ?_, ?_⟩
  · intro js; simp [workerRun]
  · rw [List.length_flatten, List.map_map]
    have he : (List.length ∘ workerRun env bds lm) = List.length := by
      funext js; simp [workerRun]
    rw [he, ← List.length_flatten, hpart.length_eq]
  · intro rs h
    have := consume_counts rs ⟨0, 0, 0⟩
    simpa [h] using this

/-- Witness for C2: three identifiers split over two workers yield three
results. -/
theorem C2_exactly_n_results_witness :
    List.Perm ([[1, 2], [3]] : List (List Int)).flatten [1, 2, 3]
  ∧ ([[1, 2], [3]].map (workerRun ⟨"o", "r", fun _ => .ok ⟨0, 0⟩, false,
      fun _ _ => none⟩ (fun _ => none) (fun _ => ⟨0, 0, 0, 0⟩))).flatten.length =
      ([1, 2, 3] : List Int).length := by
  have hp : List.Perm ([[1, 2], [3]] : List (List Int)).flatten [1, 2, 3] := by
    decide
  have h := C2_exactly_n_results ⟨"o", "r", fun _ => .ok ⟨0, 0⟩, false,
    fun _ _ => none⟩ (fun _ => none) (fun _ => ⟨0, 0, 0, 0⟩) [1, 2, 3]
    [[1, 2], [3]] hp
  exact ⟨hp, h.2.1⟩

/-- C10: with no persistence pool configured, every job whose breakdown is
obtainable completes successfully with `inserted=false`, the run returns
success with counters `processed = N`, `inserted = 0`, `errors = 0`, and no
upsert is attempted (the run's outcome is independent of the insert
collaborator). -/
theorem C10_no_pool (env : ScrapeEnv) (bds : Int → Option CommentsBreakdown)
    (lites : List PRLite) (hpool : env.hasPool = false)
    (hok : ∀ n ∈ lites.map (fun pr => pr.Number),
      (bds n).isSome = true ∨ ∃ bd, env.fallback n = .ok bd) :
    (∀ r ∈ workerRun env bds (liteMapOf lites) (lites.map (fun pr => pr.Number)),
      ∃ num row, r = JobResult.ok num row false)
  ∧ Run env (.ok lites) (.ok bds) = .ok ⟨(lites.length : Int), 0, 0⟩
  ∧ ∀ ins, Run { env with insertResult := ins } (.ok lites) (.ok bds) =
      Run env (.ok lites) (.ok bds) := by
  have hjob : ∀ n ∈ lites.map (fun pr => pr.Number),
      ∃ row, processJob env bds (liteMapOf lites) n = .ok n row false := by
    intro n hn
    obtain h | ⟨bd, hbd⟩ := hok n hn
    · cases hb : bds n with
      | none => rw [hb] at h; simp at h
      | some bd =>
        refine ⟨buildRowFromLite env.owner env.repo n (liteMapOf lites n) bd, ?_⟩
        simp [processJob, hb, hpool]
    · cases hb : bds n with
      | none =>
        refine ⟨buildRowFromLite env.owner env.repo n (liteMapOf lites n) bd, ?_⟩
        simp [processJob, hb, hbd, hpool]
      | some bd2 =>
        refine ⟨buildRowFromLite env.owner env.repo n (liteMapOf lites n) bd2, ?_⟩
        simp [processJob, hb, hpool]
  have hall : ∀ r ∈ workerRun env bds (liteMapOf lites)
      (lites.map (fun pr => pr.Number)), ∃ num row, r = JobResult.ok num row false := by
    intro r hr
    obtain ⟨n, hn, rfl⟩ := List.mem_map.mp hr
    obtain ⟨row, hrow⟩ := hjob n hn
    exact ⟨n, row, hrow⟩
  refine ⟨hall, ?_, ?_⟩
  · show Except.ok ((workerRun env bds (liteMapOf lites)
        (lites.map (fun pr => pr.Number))).foldl consumeStep ⟨0, 0, 0⟩) = _
    rw [consume_all_ok _ _ hall]
    simp [workerRun]
  · intro ins
    have hpj : processJob { env with insertResult := ins } bds (liteMapOf lites)
        = processJob env bds (liteMapOf lites) := by
      funext n
      unfold processJob
      cases bds n with
      | some bd => simp [hpool]
      | none =>
        cases env.fallback n with
        | error e => rfl
        | ok bd => simp [hpool]
    simp only [Run, workerRun, hpj]

/-- Witness for C10 on a one-PR run with no pool: the run succeeds with
processed = 1 and inserted = 0 even though every insert would fail and the
per-item fallback would error. -/
theorem C10_no_pool_witness :
    Run ⟨"o", "r", fun _ => .error "net", false, fun _ _ => some "db down"⟩
      (.ok [⟨1, 10, 2, 99⟩]) (.ok (fun _ => some ⟨2, 1⟩)) =
      .ok ⟨(1 : Int), 0, 0⟩ := by
  have h := C10_no_pool
    ⟨"o", "r", fun _ => .error "net", false, fun _ _ => some "db down"⟩
    (fun _ => some ⟨2, 1⟩) [⟨1, 10, 2, 99⟩] rfl
    (fun n hn => Or.inl rfl)
  exact h.2.1

/-! ### Upsert keying lemmas -/

def noColon (s : String) : Bool := decide (':' ∉ s.data)

theorem lookupKey_upsert_self {κ : Type} [DecidableEq κ]
    (t : List (κ × PRRow)) (k : κ) (r : PRRow) :
    lookupKey (upsert t k r) k = some r := by
  induction t with
  | nil => simp [upsert, lookupKey]
  | cons p t ih =>
    simp only [upsert]
    by_cases hpk : p.1 = k
    · rw [if_pos hpk]
      simp [lookupKey]
    · rw [if_neg hpk]
      simp only [lookupKey]
      rw [if_neg hpk, ih]

theorem lookupKey_upsert_other {κ : Type} [DecidableEq κ]
    (t : List (κ × PRRow)) (k kq : κ) (r : PRRow) (h : ¬k = kq) :
    lookupKey (upsert t k r) kq = lookupKey t kq := by
  induction t with
  | nil => simp [upsert, lookupKey, h]
  | cons p t ih =>
    simp only [upsert]
    by_cases hpk : p.1 = k
    · rw [if_pos hpk]
      simp only [lookupKey]
      rw [if_neg h, if_neg (by rw [hpk]; exact h)]
    · rw [if_neg hpk]
      simp only [lookupKey]
      by_cases hpq : p.1 = kq
      · rw [if_pos hpq, if_pos hpq]
      · rw [if_neg hpq, if_neg hpq, ih]

theorem containsKey_upsert_self {κ : Type} [DecidableEq κ]
    (t : List (κ × PRRow)) (k : κ) (r : PRRow) :
    containsKey (upsert t k r) k = true := by
  induction t with
  | nil => simp [upsert, containsKey]
  | cons p t ih =>
    by_cases hpk : p.1 = k
    · simp [upsert, containsKey, hpk]
    · simp [upsert, containsKey, hpk, ih]

theorem length_upsert {κ : Type} [DecidableEq κ] (t : List (κ × PRRow))
    (k : κ) (r : PRRow) :
    (upsert t k r).length =
      if containsKey t k = true then t.length else t.length + 1 := by
  induction t with
  | nil => simp [upsert, containsKey]
  | cons p t ih =>
    by_cases hpk : p.1 = k
    · simp [upsert, containsKey, hpk]
    · simp only [upsert, if_neg hpk, List.length_cons, ih, containsKey]
      have he : (decide (p.1 = k) || containsKey t k) = containsKey t k := by
        simp [hpk]
      rw [he]
      by_cases hc : containsKey t k = true
      · rw [if_pos hc, if_pos hc]
      · rw [if_neg hc, if_neg hc]

theorem colon_split_inj (o1 : List Char) : ∀ (o2 r1 r2 : List Char),
    ':' ∉ o1 → ':' ∉ o2 → o1 ++ ':' :: r1 = o2 ++ ':' :: r2 →
    o1 = o2 ∧ r1 = r2 := by
  induction o1 with
  | nil =>
    intro o2 r1 r2 h1 h2 h
    cases o2 with
    | nil => simpa using h
    | cons c t =>
      simp only [List.nil_append, List.cons_append, List.cons.injEq] at h
      rw [← h.1] at h2
      exact absurd (List.mem_cons_self _ _) h2
  | cons c t ih =>
    intro o2 r1 r2 h1 h2 h
    cases o2 with
    | nil =>
      simp only [List.cons_append, List.nil_append, List.cons.injEq] at h
      rw [h.1] at h1
      exact absurd (List.mem_cons_self _ _) h1
    | cons c2 t2 =>
      simp only [List.cons_append, List.cons.injEq] at h
      obtain ⟨hc, ht⟩ := h
      have h1t : ':' ∉ t := fun hm => h1 (List.mem_cons_of_mem _ hm)
      have h2t : ':' ∉ t2 := fun hm => h2 (List.mem_cons_of_mem _ hm)
      obtain ⟨he, hr⟩ := ih t2 r1 r2 h1t h2t ht
      exact ⟨by rw [hc, he], hr⟩

/-- Two rows with the same id and colon-free owners that map to the same
composite key agree on owner and repo. -/
theorem insertKey_eq_owner_repo (r1 r2 : PRRow) (hid : r1.ID = r2.ID)
    (h1o : noColon r1.Owner = true) (h2o : noColon r2.Owner = true)
    (hkey : insertKeyComposite r1 = insertKeyComposite r2) :
    r1.Owner = r2.Owner ∧ r1.Repo = r2.Repo := by
  have hd : (insertKeyComposite r1).data = (insertKeyComposite r2).data := by
    rw [hkey]
  unfold insertKeyComposite at hd
  simp only [String.data_append, List.append_assoc, hid] at hd
  have hd2 := List.append_cancel_left hd
  have hsplit : r1.Owner.data ++ ':' :: r1.Repo.data =
      r2.Owner.data ++ ':' :: r2.Repo.data := by
    have : (":".data ++ (r1.Owner.data ++ (":".data ++ r1.Repo.data))) =
        (":".data ++ (r2.Owner.data ++ (":".data ++ r2.Repo.data))) := hd2
    simpa using this
  have h1 : ':' ∉ r1.Owner.data := of_decide_eq_true h1o
  have h2 : ':' ∉ r2.Owner.data := of_decide_eq_true h2o
  obtain ⟨ho, hr⟩ := colon_split_inj r1.Owner.data r2.Owner.data
    r1.Repo.data r2.Repo.data h1 h2 hsplit
  exact ⟨String.ext ho, String.ext hr⟩

/-- C8: the claim fails as stated: the composite key is the bare string
`id:owner:repo`, so two rows of the same id under different owners and
repos can collide when the names contain a colon — here (1, "a:b", "c")
and (1, "a", "b:c") share the key "1:a:b:c", and the second upsert
overwrites the first instead of keeping two distinct rows. -/
theorem C8_key_collision_cex :
    (⟨1, "c", "a:b", 2, 1, 3, 4⟩ : PRRow).Owner ≠
      (⟨1, "b:c", "a", 5, 0, 6, 7⟩ : PRRow).Owner
  ∧ (⟨1, "c", "a:b", 2, 1, 3, 4⟩ : PRRow).Repo ≠
      (⟨1, "b:c", "a", 5, 0, 6, 7⟩ : PRRow).Repo
  ∧ insertKeyComposite ⟨1, "c", "a:b", 2, 1, 3, 4⟩ =
      insertKeyComposite ⟨1, "b:c", "a", 5, 0, 6, 7⟩
  ∧ InsertPRRow (InsertPRRow [] ⟨1, "c", "a:b", 2, 1, 3, 4⟩)
      ⟨1, "b:c", "a", 5, 0, 6, 7⟩ =
      [(insertKeyComposite ⟨1, "c", "a:b", 2, 1, 3, 4⟩,
        ⟨1, "b:c", "a", 5, 0, 6, 7⟩)] := by
  decide

/-- C8 (amended): for colon-free owner names the composite key behaves as
the claim states: upserting the same (owner, repo, id) overwrites in place
(same table size, key maps to the new row), while rows with the same id
under a different owner or repo have distinct keys and both remain
retrievable. -/
theorem C8_upsert_keying (t : List (String × PRRow)) (r1 r2 : PRRow)
    (hid : r1.ID = r2.ID)
    (h1o : noColon r1.Owner = true) (h2o : noColon r2.Owner = true) :
    (r1.Owner = r2.Owner ∧ r1.Repo = r2.Repo →
      (InsertPRRow (InsertPRRow t r1) r2).length = (InsertPRRow t r1).length ∧
      lookupKey (InsertPRRow (InsertPRRow t r1) r2) (insertKeyComposite r2) =
        some r2)
  ∧ (r1.Owner ≠ r2.Owner ∨ r1.Repo ≠ r2.Repo →
      insertKeyComposite r1 ≠ insertKeyComposite r2 ∧
      lookupKey (InsertPRRow (InsertPRRow t r1) r2) (insertKeyComposite r1) =
        some r1 ∧
      lookupKey (InsertPRRow (InsertPRRow t r1) r2) (insertKeyComposite r2) =
        some r2) := by
  constructor
  · rintro ⟨ho, hr⟩
    have hkey : insertKeyComposite r1 = insertKeyComposite r2 := by
      unfold insertKeyComposite
      rw [hid, ho, hr]
    constructor
    · unfold InsertPRRow
      rw [length_upsert, ← hkey,
        if_pos (containsKey_upsert_self t (insertKeyComposite r1) r1)]
    · unfold InsertPRRow
      rw [lookupKey_upsert_self]
  · intro hne
    have hkey : insertKeyComposite r1 ≠ insertKeyComposite r2 := by
      intro hk
      obtain ⟨ho, hr⟩ := insertKey_eq_owner_repo r1 r2 hid h1o h2o hk
      rcases hne with h | h
      · exact h ho
      · exact h hr
    refine ⟨hkey, ?_, ?_⟩
    · unfold InsertPRRow
      rw [lookupKey_upsert_other _ _ _ _ (fun hh => hkey hh.symm),
        lookupKey_upsert_self]
    · unfold InsertPRRow
      rw [lookupKey_upsert_self]

/-- Witness for C8: two rows with id 1 under the same owner and different
repos get distinct keys and stay distinct. -/
theorem C8_upsert_keying_witness :
    insertKeyComposite ⟨1, "r1", "own", 2, 1, 3, 4⟩ ≠
      insertKeyComposite ⟨1, "r2", "own", 5, 0, 6, 7⟩
  ∧ lookupKey (InsertPRRow (InsertPRRow [] ⟨1, "r1", "own", 2, 1, 3, 4⟩)
      ⟨1, "r2", "own", 5, 0, 6, 7⟩)
      (insertKeyComposite ⟨1, "r1", "own", 2, 1, 3, 4⟩) =
      some ⟨1, "r1", "own", 2, 1, 3, 4⟩ := by
  have h := (C8_upsert_keying [] ⟨1, "r1", "own", 2, 1, 3, 4⟩
    ⟨1, "r2", "own", 5, 0, 6, 7⟩ rfl (by decide) (by decide)).2
    (Or.inr (by decide))
  exact ⟨h.1, h.2.1⟩

end GithubScraper
